import Mathlib

/-!
Shallow embedding of the repository's data-flow core (`login.py`) and of the
CSRF-abort path of the companion setup script (`setup.py`).

`login.py` logs into an admin console, paginates two REST collections
(users; groups together with their members), joins them into a
user-id → group-names index, and serializes two JSON outputs.  Server
interaction is modelled by the finite sequence of page responses the server
returns to the successive requests of each loop: a `while` loop that still
wants another page after the modelled responses run out is a loop that the
model cannot show terminating, encoded as `none`.
-/

set_option autoImplicit false

/-- Python truthiness of an optional string (`if s:`): `None` and the empty
string are falsy, every other string is truthy. -/
def strTruthy : Option String → Bool
  | none => false
  | some s => decide (s ≠ "")

/-- A raw user record as returned by the users endpoint; every field is read
with `dict.get` in the source, hence optional. -/
structure UserRec where
  accountId : Option String
  name : Option String
  email : Option String
  last_active_date : Option String
  status : Option String
  deriving DecidableEq, Repr

/-- A member record from the group-members endpoint: `member.get('id')` and
`member.get('displayName')` in the source. -/
structure Member where
  id : Option String
  displayName : Option String
  deriving DecidableEq, Repr

/-- A raw group record from the groups endpoint; `group['id']` and
`group['name']` are accessed directly in `fetch_groups`, `description` only
via `get`. -/
structure RawGroup where
  id : String
  name : String
  description : Option String
  deriving DecidableEq, Repr

/-- A group after `fetch_groups` has attached the fetched member list under
the `members` key (`group['members'] = members`). -/
structure GroupRec where
  id : String
  name : String
  description : Option String
  members : List Member
  deriving DecidableEq, Repr

/-- One response of the paginated users endpoint: `data.get("data", [])` and
`data.get("links", {}).get("next", None)`. -/
structure UsersPage where
  data : List UserRec
  next : Option String
  deriving DecidableEq, Repr

/-- One response of the paginated group-members endpoint:
`data.get("users", [])`. -/
structure MembersPage where
  users : List Member
  deriving DecidableEq, Repr

/-- One response of the paginated groups endpoint: `data.get("groups", [])`. -/
structure GroupsPage where
  groups : List RawGroup
  deriving DecidableEq, Repr

/-- The `while next_url:` loop of `fetch_users` (login.py:57-69): extend the
accumulator with the page's `data`, then continue while the `next` link is
truthy.  `none` means the modelled response sequence ran out while the loop
still wanted a page. -/
def fetch_users_go : List UsersPage → List UserRec → Option (List UserRec)
  | [], _ => none
  | p :: ps, acc =>
    if strTruthy p.next then fetch_users_go ps (acc ++ p.data) else some (acc ++ p.data)

/-- `fetch_users` (login.py:43-72) run against a finite sequence of server
responses, starting from the empty accumulator `all_users = []`. -/
def fetch_users (responses : List UsersPage) : Option (List UserRec) :=
  fetch_users_go responses []

/-- The `while True` loop of `fetch_group_members` (login.py:84-99): stop on
an empty member page, otherwise extend and advance `start_index` by
`count = 50`. -/
def fetch_group_members_go : List MembersPage → Nat → List Member → Option (List Member)
  | [], _, _ => none
  | p :: ps, idx, acc =>
    if p.users = [] then some acc else fetch_group_members_go ps (idx + 50) (acc ++ p.users)

/-- `fetch_group_members` (login.py:74-101): `all_members = []`,
`start_index = 1`. -/
def fetch_group_members (responses : List MembersPage) : Option (List Member) :=
  fetch_group_members_go responses 1 []

/-- The sequence of `start-index` values actually requested by the
`fetch_group_members` loop, one per executed iteration (login.py:86,99). -/
def member_request_indices : List MembersPage → Nat → List Nat
  | [], _ => []
  | p :: ps, idx =>
    idx :: (if p.users = [] then [] else member_request_indices ps (idx + 50))

/-- The inner per-group work of `fetch_groups` (login.py:129-133): for each
group on a page, fetch its members and attach them under `members`.  A
member fetch that does not terminate makes the whole computation `none`.
`env g.id` is the member-response sequence the server has for group `g`. -/
def attach_members (env : String → List MembersPage) : List RawGroup → Option (List GroupRec)
  | [] => some []
  | g :: gs =>
    match fetch_group_members (env g.id) with
    | none => none
    | some ms =>
      match attach_members env gs with
      | none => none
      | some rest => some ({ id := g.id, name := g.name, description := g.description, members := ms } :: rest)

/-- The `while True` loop of `fetch_groups` (login.py:114-137): stop on an
empty group page, otherwise attach members to every group of the page,
extend the accumulator, and advance `start_index` by `count = 20`. -/
def fetch_groups_go (env : String → List MembersPage) : List GroupsPage → Nat → List GroupRec → Option (List GroupRec)
  | [], _, _ => none
  | p :: ps, idx, acc =>
    if p.groups = [] then some acc
    else
      match attach_members env p.groups with
      | none => none
      | some gs => fetch_groups_go env ps (idx + 20) (acc ++ gs)

/-- `fetch_groups` (login.py:103-140): `all_groups = []`, `start_index = 1`. -/
def fetch_groups (env : String → List MembersPage) (responses : List GroupsPage) : Option (List GroupRec) :=
  fetch_groups_go env responses 1 []

/-- The sequence of `start-index` values actually requested by the
`fetch_groups` loop, one per executed iteration (login.py:116,137). -/
def group_request_indices : List GroupsPage → Nat → List Nat
  | [], _ => []
  | p :: ps, idx =>
    idx :: (if p.groups = [] then [] else group_request_indices ps (idx + 20))

/-- Association-list lookup with Python-dict semantics restricted to string
keys (the model of `d[k]` / `k in d` / `d.get(k)` on
`user_to_groups_map`). -/
def dlookup (k : String) : List (String × List String) → Option (List String)
  | [] => none
  | kv :: rest => if kv.1 = k then some kv.2 else dlookup k rest

/-- `user_to_groups_map[member_id].append(group_name)`: append `v` to the
entry of key `k`, leaving every other entry unchanged. -/
def dictAppend (m : List (String × List String)) (k v : String) : List (String × List String) :=
  m.map fun kv => if kv.1 = k then (kv.1, kv.2 ++ [v]) else kv

/-- One member step of the join (login.py:161-166): `member.get('id')`, then
`if member_id in user_to_groups_map: ...append(group_name)`.  A member with
no id (`None`) can never be a key of the string-keyed map. -/
def addMember (m : List (String × List String)) (group_name : String) (mem : Member) : List (String × List String) :=
  match mem.id with
  | none => m
  | some mid => if (dlookup mid m).isSome then dictAppend m mid group_name else m

/-- The dict comprehension of login.py:153-155:
`{user.get("accountId"): [] for user in users_data if user.get("accountId")}`.
Only truthy account ids become keys; a duplicate id keeps its single entry. -/
def user_to_groups_map_init (users_data : List UserRec) : List (String × List String) :=
  users_data.foldl
    (fun m u =>
      match u.accountId with
      | none => m
      | some s =>
        if s = "" then m
        else if (dlookup s m).isSome then m else m ++ [(s, ([] : List String))])
    []

/-- The fully populated `user_to_groups_map` after the double loop of
login.py:159-166 over every group and every member. -/
def user_to_groups_map (users_data : List UserRec) (groups_data : List GroupRec) : List (String × List String) :=
  groups_data.foldl
    (fun m g => g.members.foldl (fun m2 mem => addMember m2 g.name mem) m)
    (user_to_groups_map_init users_data)

/-- One record of `users.json` (login.py:170-181). -/
structure UserOut where
  id : Option String
  name : Option String
  email : Option String
  last_active : Option String
  status : Option String
  groups : List String
  deriving DecidableEq, Repr

/-- One record of `groups.json` (login.py:188-197); `members` holds the
members' `displayName`s, possibly `None`. -/
structure GroupOut where
  id : String
  name : String
  description : Option String
  members : List (Option String)
  deriving DecidableEq, Repr

/-- The `users_output` comprehension of `save_to_json` (login.py:170-181):
one output record per input user, in order, with
`groups = user_to_groups_map.get(user.get("accountId"), [])`. -/
def users_output (users_data : List UserRec) (groups_data : List GroupRec) : List UserOut :=
  let m := user_to_groups_map users_data groups_data
  users_data.map fun u =>
    { id := u.accountId
      name := u.name
      email := u.email
      last_active := u.last_active_date
      status := u.status
      groups :=
        match u.accountId with
        | none => []
        | some s => (dlookup s m).getD [] }

/-- The `groups_output` comprehension of `save_to_json` (login.py:188-197):
one output record per input group, in order, with members rendered by
display name. -/
def groups_output (groups_data : List GroupRec) : List GroupOut :=
  groups_data.map fun g =>
    { id := g.id
      name := g.name
      description := g.description
      members := g.members.map Member.displayName }

/-- A browser cookie as seen by `get_csrf_token` (setup.py:44-49): a name and
a value. -/
structure Cookie where
  name : String
  value : String
  deriving DecidableEq, Repr

/-- `get_csrf_token` (setup.py:41-54): return the value of the first cookie
named `atlassian.account.xsrf.token`, or `None` when no cookie matches. -/
def get_csrf_token : List Cookie → Option String
  | [] => none
  | c :: rest =>
    if c.name = "atlassian.account.xsrf.token" then some c.value else get_csrf_token rest

/-- A remote write operation attempted by `setup.py`: group creation, user
invitation, or group-membership addition. -/
inductive WriteOp where
  | createGroup (name description : String)
  | inviteUser (email : String)
  | addUserToGroup (group_id account_id : String)
  deriving DecidableEq, Repr

/-- The `GROUPS_TO_CREATE` constant of setup.py:15-18 as (name, description)
pairs. -/
def GROUPS_TO_CREATE : List (String × String) :=
  [("DevOps Team", "Group for DevOps engineers."),
   ("QA-Testers", "Group for the Quality Assurance team.")]

/-- The `USERS_TO_INVITE` constant of setup.py:19-23 as (email, group_name)
pairs. -/
def USERS_TO_INVITE : List (String × String) :=
  [("devops-final@example.com", "DevOps Team"),
   ("qa-final@example.com", "QA-Testers")]

/-- String-valued association-list lookup, the model of
`group_id_map.get(name)` in setup.py:179 (the two group names are
distinct, so first-match lookup agrees with the Python dict). -/
def slookup (k : String) : List (String × String) → Option String
  | [] => none
  | kv :: rest => if kv.1 = k then some kv.2 else slookup k rest

/-- The group-creation loop of setup.py:169-173: one `create_group` attempt
per configured group; `cg name` is the (truthy) group id the server hands
back, or `none` on failure, and only successes enter `group_id_map`. -/
def setup_group_phase (cg : String → Option String) (groups : List (String × String)) :
    List WriteOp × List (String × String) :=
  groups.foldl
    (fun acc g =>
      let ops := acc.1 ++ [WriteOp.createGroup g.1 g.2]
      match cg g.1 with
      | some gid => (ops, acc.2 ++ [(g.1, gid)])
      | none => (ops, acc.2))
    ([], [])

/-- The invite loop of setup.py:175-183: one `invite_user` attempt per
configured user; when the invite yields a (truthy) account id `iv email`
and the target group is in `group_id_map`, an `add_user_to_group` write is
attempted as well. -/
def setup_user_phase (iv : String → Option String) (gmap : List (String × String))
    (usersToInvite : List (String × String)) : List WriteOp :=
  usersToInvite.foldl
    (fun ops u =>
      let ops2 := ops ++ [WriteOp.inviteUser u.1]
      match iv u.1 with
      | none => ops2
      | some uid =>
        match slookup u.2 gmap with
        | none => ops2
        | some gid => ops2 ++ [WriteOp.addUserToGroup gid uid])
    []

/-- The write trace of `main` in setup.py:155-185 after a successful login:
if the CSRF token is falsy (`if not csrf_token: ... return`,
setup.py:165-167) the script returns with no write attempted; otherwise it
runs the group-creation phase and then the invite phase. -/
def setup_main_writes (cookies : List Cookie) (cg iv : String → Option String) : List WriteOp :=
  match get_csrf_token cookies with
  | none => []
  | some tok =>
    if tok = "" then []
    else
      let gp := setup_group_phase cg GROUPS_TO_CREATE
      gp.1 ++ setup_user_phase iv gp.2 USERS_TO_INVITE

/-- Outcome of one run of `main` in login.py: either the success message or
the logged error of the single catch-all handler. -/
inductive RunOutcome (ε : Type) where
  | success
  | loggedError (e : ε)
  deriving DecidableEq, Repr

/-- The `try` body of `main` (login.py:210-221): `login`, `fetch_users`,
`fetch_groups`, `save_to_json` in sequence, each step either returning a
value or raising an exception; a raise skips every later step. -/
def main_body {ε : Type} (loginR : Except ε Unit) (usersR : Except ε (List UserRec))
    (groupsR : Except ε (List GroupRec))
    (saveR : List UserRec → List GroupRec → Except ε Unit) : Except ε Unit :=
  match loginR with
  | .error e => .error e
  | .ok _ =>
    match usersR with
    | .error e => .error e
    | .ok us =>
      match groupsR with
      | .error e => .error e
      | .ok gs => saveR us gs

/-- `main` (login.py:202-228): the single `except Exception` handler turns
any raised exception into a logged abort; a clean body is a success. -/
def main_run {ε : Type} (loginR : Except ε Unit) (usersR : Except ε (List UserRec))
    (groupsR : Except ε (List GroupRec))
    (saveR : List UserRec → List GroupRec → Except ε Unit) : RunOutcome ε :=
  match main_body loginR usersR groupsR saveR with
  | .ok _ => .success
  | .error e => .loggedError e

/-- The `fetch_users` loop terminates, from any accumulator, exactly when
some response carries a falsy `next` link. -/
theorem fetch_users_go_isSome (resp : List UsersPage) : ∀ acc : List UserRec,
    ((fetch_users_go resp acc).isSome = true) ↔ ∃ p ∈ resp, strTruthy p.next = false := by
  induction resp with
  | nil => intro acc; simp [fetch_users_go]
  | cons p ps ih =>
    intro acc
    cases h : strTruthy p.next with
    | true => simp [fetch_users_go, h, ih]
    | false => simp [fetch_users_go, h]

/-- Content of the `fetch_users` loop: with truthy `next` links on every page
but the last, the result is the accumulator followed by every page's `data`
in order. -/
theorem fetch_users_go_concat (ps : List UsersPage) (last : UsersPage) :
    ∀ acc : List UserRec, (∀ p ∈ ps, strTruthy p.next = true) → strTruthy last.next = false →
    fetch_users_go (ps ++ [last]) acc = some (acc ++ ((ps ++ [last]).map UsersPage.data).flatten) := by
  induction ps with
  | nil =>
    intro acc _ hl
    simp [fetch_users_go, hl]
  | cons p ps ih =>
    intro acc hp hl
    have h1 : strTruthy p.next = true := hp p (by simp)
    have ih2 := ih (acc ++ p.data) (fun q hq => hp q (by simp [hq])) hl
    simp only [List.cons_append, fetch_users_go, h1, if_true, List.append_eq] at ih2 ⊢
    rw [ih2]
    simp [List.append_assoc]

/-- The `fetch_group_members` loop terminates, from any start index and
accumulator, exactly when some response carries an empty member page. -/
theorem fetch_group_members_go_isSome (resp : List MembersPage) : ∀ (idx : Nat) (acc : List Member),
    ((fetch_group_members_go resp idx acc).isSome = true) ↔ ∃ p ∈ resp, p.users = [] := by
  induction resp with
  | nil => intro idx acc; simp [fetch_group_members_go]
  | cons p ps ih =>
    intro idx acc
    by_cases h : p.users = []
    · simp [fetch_group_members_go, h]
    · simp [fetch_group_members_go, h, ih]

/-- Content of the `fetch_group_members` loop: with nonempty pages before a
final empty page, the result is the accumulator followed by every page's
member list in order. -/
theorem fetch_group_members_go_concat (ps : List MembersPage) (last : MembersPage) :
    ∀ (idx : Nat) (acc : List Member), (∀ p ∈ ps, p.users ≠ []) → last.users = [] →
    fetch_group_members_go (ps ++ [last]) idx acc = some (acc ++ (ps.map MembersPage.users).flatten) := by
  induction ps with
  | nil =>
    intro idx acc _ hl
    simp [fetch_group_members_go, hl]
  | cons p ps ih =>
    intro idx acc hp hl
    have h1 : p.users ≠ [] := hp p (by simp)
    have ih2 := ih (idx + 50) (acc ++ p.users) (fun q hq => hp q (by simp [hq])) hl
    simp only [List.cons_append, List.append_eq] at ih2 ⊢
    simp only [fetch_group_members_go, h1, if_neg, ite_false]
    rw [ih2]
    simp [List.append_assoc]

/-- When every per-group member pagination terminates, attaching members
succeeds and enriches each group in place, preserving order and length. -/
theorem attach_members_eq (env : String → List MembersPage) (gs : List RawGroup)
    (h : ∀ g ∈ gs, (fetch_group_members (env g.id)).isSome = true) :
    attach_members env gs = some (gs.map fun g =>
      GroupRec.mk g.id g.name g.description ((fetch_group_members (env g.id)).getD [])) := by
  induction gs with
  | nil => simp [attach_members]
  | cons g gs ih =>
    have hg : (fetch_group_members (env g.id)).isSome = true := h g (by simp)
    obtain ⟨ms, hms⟩ := Option.isSome_iff_exists.mp hg
    have ih2 := ih fun q hq => h q (by simp [hq])
    simp [attach_members, hms, ih2]

/-- The `fetch_groups` page loop stops only by meeting an empty group page. -/
theorem fetch_groups_go_isSome_imp (env : String → List MembersPage) (resp : List GroupsPage) :
    ∀ (idx : Nat) (acc : List GroupRec),
    (fetch_groups_go env resp idx acc).isSome = true → ∃ p ∈ resp, p.groups = [] := by
  induction resp with
  | nil => intro idx acc h; simp [fetch_groups_go] at h
  | cons p ps ih =>
    intro idx acc h
    by_cases hp : p.groups = []
    · exact ⟨p, by simp, hp⟩
    · simp only [fetch_groups_go, hp, ite_false] at h
      cases ham : attach_members env p.groups with
      | none => rw [ham] at h; simp at h
      | some gs =>
        rw [ham] at h
        obtain ⟨q, hq, hq2⟩ := ih (idx + 20) (acc ++ gs) h
        exact ⟨q, by simp [hq], hq2⟩

/-- Content of the `fetch_groups` loop: with nonempty group pages before a
final empty page, and terminating member pagination for every group met,
the result is the accumulator followed by every page's enriched group list
in order. -/
theorem fetch_groups_go_concat (env : String → List MembersPage) (ps : List GroupsPage)
    (last : GroupsPage) : ∀ (idx : Nat) (acc : List GroupRec),
    (∀ p ∈ ps, p.groups ≠ []) → last.groups = [] →
    (∀ p ∈ ps, ∀ g ∈ p.groups, (fetch_group_members (env g.id)).isSome = true) →
    fetch_groups_go env (ps ++ [last]) idx acc = some (acc ++ (ps.map fun p =>
      p.groups.map fun g =>
        GroupRec.mk g.id g.name g.description ((fetch_group_members (env g.id)).getD [])).flatten) := by
  induction ps with
  | nil =>
    intro idx acc _ hl _
    simp [fetch_groups_go, hl]
  | cons p ps ih =>
    intro idx acc hp hl hm
    have h1 : p.groups ≠ [] := hp p (by simp)
    have h2 := attach_members_eq env p.groups (hm p (by simp))
    have ih2 := ih (idx + 20)
      (acc ++ p.groups.map fun g =>
        GroupRec.mk g.id g.name g.description ((fetch_group_members (env g.id)).getD []))
      (fun q hq => hp q (by simp [hq])) hl (fun q hq => hm q (by simp [hq]))
    simp only [List.cons_append, List.append_eq] at ih2 ⊢
    simp only [fetch_groups_go, h1, ite_false, if_neg, h2]
    rw [ih2]
    simp [List.append_assoc]

/-- The start indices requested by the member loop advance by exactly 50 per
iteration, from any starting value. -/
theorem member_request_indices_spec (resp : List MembersPage) : ∀ (start k i : Nat),
    (member_request_indices resp start).get? k = some i → i = start + 50 * k := by
  induction resp with
  | nil => intro start k i h; simp [member_request_indices] at h
  | cons p ps ih =>
    intro start k i h
    cases k with
    | zero =>
      simp [member_request_indices] at h
      omega
    | succ k =>
      simp only [member_request_indices, List.get?_cons_succ] at h
      by_cases hp : p.users = []
      · simp [hp] at h
      · simp only [hp, ite_false, if_neg] at h
        have := ih (start + 50) k i h
        omega

/-- The start indices requested by the groups loop advance by exactly 20 per
iteration, from any starting value. -/
theorem group_request_indices_spec (resp : List GroupsPage) : ∀ (start k i : Nat),
    (group_request_indices resp start).get? k = some i → i = start + 20 * k := by
  induction resp with
  | nil => intro start k i h; simp [group_request_indices] at h
  | cons p ps ih =>
    intro start k i h
    cases k with
    | zero =>
      simp [group_request_indices] at h
      omega
    | succ k =>
      simp only [group_request_indices, List.get?_cons_succ] at h
      by_cases hp : p.groups = []
      · simp [hp] at h
      · simp only [hp, ite_false, if_neg] at h
        have := ih (start + 20) k i h
        omega

/-- Appending to a key's entry changes only that key's looked-up value. -/
theorem dlookup_dictAppend (m : List (String × List String)) (k v uid : String) :
    dlookup uid (dictAppend m k v)
      = (dlookup uid m).map fun l => if uid = k then l ++ [v] else l := by
  induction m with
  | nil => simp [dlookup, dictAppend]
  | cons kv rest ih =>
    simp only [dictAppend, List.map_cons] at ih ⊢
    by_cases h1 : kv.1 = k
    · by_cases h2 : kv.1 = uid
      · have huk : uid = k := h2 ▸ h1
        simp [dlookup, h1, h2, huk]
      · have hku : ¬ k = uid := fun hc => h2 (h1.trans hc)
        simp [dlookup, h1, h2, hku, ih]
    · by_cases h2 : kv.1 = uid
      · have huk : ¬ uid = k := fun hc => h1 (h2.trans hc)
        simp [dlookup, h1, h2, huk]
      · simp [dlookup, h1, h2, ih]

/-- One member step of the join, seen through lookup: the step appends the
group name exactly to the entry of the member's id, when that entry
exists; every other entry, and a missing entry, is unchanged. -/
theorem dlookup_addMember (m : List (String × List String)) (gname : String) (mem : Member)
    (uid : String) :
    dlookup uid (addMember m gname mem)
      = (dlookup uid m).map fun l => if mem.id = some uid then l ++ [gname] else l := by
  cases hmem : mem.id with
  | none =>
    simp only [addMember, hmem]
    cases h : dlookup uid m <;> simp [h]
  | some mid =>
    simp only [addMember, hmem]
    by_cases hk : (dlookup mid m).isSome
    · rw [if_pos hk, dlookup_dictAppend]
      cases h : dlookup uid m with
      | none => simp
      | some l =>
        by_cases he : uid = mid
        · simp [he]
        · have he2 : ¬ mid = uid := fun hc => he hc.symm
          simp [he, he2]
    · rw [if_neg hk]
      have hnone : dlookup mid m = none := Option.not_isSome_iff_eq_none.mp hk
      by_cases he : mid = uid
      · rw [he] at hnone
        simp [hnone]
      · cases h : dlookup uid m <;> simp [h, he]

/-- Folding the member loop of one group over the map, seen through lookup:
the entry of `uid` grows by one copy of the group name per member of the
group whose id is `uid`. -/
theorem dlookup_fold_members (gname : String) (members : List Member) :
    ∀ (m : List (String × List String)) (uid : String),
    dlookup uid (members.foldl (fun m2 mem => addMember m2 gname mem) m)
      = (dlookup uid m).map fun l =>
          l ++ (members.filter fun mem => decide (mem.id = some uid)).map fun _ => gname := by
  induction members with
  | nil =>
    intro m uid
    cases h : dlookup uid m <;> simp [h]
  | cons mem mems ih =>
    intro m uid
    rw [List.foldl_cons, ih, dlookup_addMember]
    cases h : dlookup uid m with
    | none => simp
    | some l =>
      by_cases hc : mem.id = some uid <;>
        simp [hc, List.filter_cons, List.append_assoc]

/-- Folding the group loop over the map, seen through lookup: the entry of
`uid` grows, group by group in order, by one copy of each group's name per
member occurrence with id `uid`. -/
theorem dlookup_fold_groups (groups : List GroupRec) :
    ∀ (m : List (String × List String)) (uid : String),
    dlookup uid (groups.foldl
        (fun m g => g.members.foldl (fun m2 mem => addMember m2 g.name mem) m) m)
      = (dlookup uid m).map fun l =>
          l ++ (groups.map fun g =>
            (g.members.filter fun mem => decide (mem.id = some uid)).map fun _ => g.name).flatten := by
  induction groups with
  | nil =>
    intro m uid
    cases h : dlookup uid m <;> simp [h]
  | cons g gs ih =>
    intro m uid
    rw [List.foldl_cons, ih, dlookup_fold_members]
    cases h : dlookup uid m <;> simp [h, List.append_assoc]

/-- First-of-two alternative on optional values, used to phrase lookups in
maps extended at the end. -/
def oalt (a b : Option (List String)) : Option (List String) :=
  match a with
  | some l => some l
  | none => b

/-- Lookup after appending one fresh entry at the end of the map. -/
theorem dlookup_append_single (m : List (String × List String)) (s uid : String) :
    dlookup uid (m ++ [(s, ([] : List String))])
      = oalt (dlookup uid m) (if uid = s then some [] else none) := by
  induction m with
  | nil =>
    by_cases h : s = uid
    · simp [dlookup, oalt, h]
    · have h2 : ¬ uid = s := fun hc => h hc.symm
      simp [dlookup, oalt, h, h2]
  | cons kv rest ih =>
    by_cases h : kv.1 = uid <;> simp [dlookup, oalt, h, ih]

/-- The dict-comprehension loop of `user_to_groups_map_init`, from any
accumulator: a key already present keeps its value, and a fresh key `uid`
appears (with value `[]`) exactly when some remaining user has `uid` as a
truthy account id. -/
theorem dlookup_init_go (users : List UserRec) : ∀ (m : List (String × List String)) (uid : String),
    dlookup uid (users.foldl
      (fun m u =>
        match u.accountId with
        | none => m
        | some s =>
          if s = "" then m
          else if (dlookup s m).isSome then m else m ++ [(s, ([] : List String))])
      m)
      = oalt (dlookup uid m)
          (if users.any (fun u => decide (u.accountId = some uid ∧ uid ≠ "")) then some [] else none) := by
  induction users with
  | nil =>
    intro m uid
    cases h : dlookup uid m <;> simp [oalt, h]
  | cons u us ih =>
    intro m uid
    cases hacc : u.accountId with
    | none =>
      simp only [List.foldl_cons, hacc]
      rw [ih]
      simp [hacc]
    | some s =>
      by_cases hs : s = ""
      · simp only [List.foldl_cons, hacc, hs, ite_true, if_pos]
        rw [ih]
        by_cases huid : uid = ""
        · simp [hacc, hs, huid]
        · have h3 : ¬ ("" : String) = uid := fun hc => huid hc.symm
          simp [hacc, hs, huid, h3]
      · by_cases hlk : (dlookup s m).isSome
        · simp only [List.foldl_cons, hacc]
          rw [if_neg hs, if_pos hlk, ih]
          by_cases hsu : s = uid
          · have hlk2 : (dlookup uid m).isSome := hsu ▸ hlk
            obtain ⟨l, hl⟩ := Option.isSome_iff_exists.mp hlk2
            simp [oalt, hl]
          · cases h : dlookup uid m <;> simp [oalt, h, hacc, hsu]
        · simp only [List.foldl_cons, hacc]
          rw [if_neg hs, if_neg hlk, ih, dlookup_append_single]
          cases h : dlookup uid m with
          | some l => simp [oalt, h]
          | none =>
            by_cases hsu : uid = s
            · have huid : ¬ uid = "" := fun hc => hs (hsu.symm.trans hc)
              simp [oalt, h, hsu, hacc, huid]
              exact Or.inl hs
            · have hsu2 : ¬ s = uid := fun hc => hsu hc.symm
              simp [oalt, h, hsu, hsu2, hacc]

/-- Lookup in the freshly initialized `user_to_groups_map`: a key exists
(with value `[]`) exactly for the truthy account ids of the fetched
users. -/
theorem dlookup_init (users : List UserRec) (uid : String) :
    dlookup uid (user_to_groups_map_init users)
      = if users.any (fun u => decide (u.accountId = some uid ∧ uid ≠ "")) then some [] else none := by
  unfold user_to_groups_map_init
  rw [dlookup_init_go]
  simp [oalt, dlookup]

/-- Full lookup characterization of the populated `user_to_groups_map`: a key
exists exactly for truthy account ids, and its value lists, group by group
in fetch order, one copy of the group's name per member occurrence carrying
that id. -/
theorem dlookup_user_to_groups_map (users : List UserRec) (groups : List GroupRec) (uid : String) :
    dlookup uid (user_to_groups_map users groups)
      = if users.any (fun u => decide (u.accountId = some uid ∧ uid ≠ "")) then
          some ((groups.map fun g =>
            (g.members.filter fun mem => decide (mem.id = some uid)).map fun _ => g.name).flatten)
        else none := by
  unfold user_to_groups_map
  rw [dlookup_fold_groups, dlookup_init]
  by_cases h : users.any (fun u => decide (u.accountId = some uid ∧ uid ≠ "")) <;>
    simp [h, oalt]

/-- Claim C1: in the join of `save_to_json`, a group's name is attached to a
user only when a member id of that group matches the accountId of some
fetched user; a member id matching no fetched user gets no key and
contributes nothing to any groups list. -/
theorem join_attaches_only_matching_ids (users : List UserRec) (groups : List GroupRec)
    (uid : String) :
    (∀ l, dlookup uid (user_to_groups_map users groups) = some l →
        (∃ u ∈ users, u.accountId = some uid)
        ∧ ∀ gname ∈ l, ∃ g ∈ groups, g.name = gname ∧ ∃ mem ∈ g.members, mem.id = some uid)
  ∧ ((∀ u ∈ users, u.accountId ≠ some uid) →
        dlookup uid (user_to_groups_map users groups) = none) := by
  constructor
  · intro l hl
    rw [dlookup_user_to_groups_map] at hl
    by_cases h : users.any (fun u => decide (u.accountId = some uid ∧ uid ≠ ""))
    · rw [if_pos h] at hl
      obtain ⟨u, hu, hcond⟩ := List.any_eq_true.mp h
      refine ⟨⟨u, hu, (of_decide_eq_true hcond).1⟩, ?_⟩
      intro gname hg
      rw [← Option.some.inj hl] at hg
      obtain ⟨ll, hll, hmem⟩ := List.mem_flatten.mp hg
      obtain ⟨g, hgmem, hfg⟩ := List.mem_map.mp hll
      rw [← hfg] at hmem
      obtain ⟨mem, hmm, hname⟩ := List.mem_map.mp hmem
      obtain ⟨hmm2, hcond2⟩ := List.mem_filter.mp hmm
      exact ⟨g, hgmem, hname, mem, hmm2, of_decide_eq_true hcond2⟩
    · rw [if_neg h] at hl
      exact absurd hl (by simp)
  · intro hnone
    rw [dlookup_user_to_groups_map]
    rw [if_neg]
    intro h
    obtain ⟨u, hu, hcond⟩ := List.any_eq_true.mp h
    exact hnone u hu (of_decide_eq_true hcond).1

/-- Witness for C1 at a concrete input: one user `u1`, one group `Team`
containing `u1`. -/
theorem join_attaches_only_matching_ids_witness :
    (∃ u ∈ [UserRec.mk (some "u1") none none none none], u.accountId = some "u1")
  ∧ ∀ gname ∈ ["Team"],
      ∃ g ∈ [GroupRec.mk "g1" "Team" none [Member.mk (some "u1") (some "Alice")]],
        g.name = gname ∧ ∃ mem ∈ g.members, mem.id = some "u1" :=
  (join_attaches_only_matching_ids
    [UserRec.mk (some "u1") none none none none]
    [GroupRec.mk "g1" "Team" none [Member.mk (some "u1") (some "Alice")]]
    "u1").1 ["Team"] (by decide)

/-- Counterexample to claim C2 as stated.  First: `fetch_users` also stops on
a response that does carry a `next` link, when that link is the empty
string (the loop guard is Python truthiness, `while next_url:`).  Second:
a `fetch_groups` run over a finite response sequence whose final response
is an empty page does not terminate when some group's member pagination
never reaches an empty member page. -/
theorem pagination_termination_cex :
    (fetch_users [UsersPage.mk [] (some "")]).isSome = true
  ∧ (∀ p ∈ [UsersPage.mk [] (some "")], p.next ≠ none)
  ∧ fetch_groups (fun _ => [MembersPage.mk [Member.mk (some "m1") (some "M")]])
      [GroupsPage.mk [RawGroup.mk "g1" "G" none], GroupsPage.mk []] = none := by
  refine ⟨rfl, ?_, rfl⟩
  intro p hp
  simp only [List.mem_singleton] at hp
  rw [hp]
  simp

/-- Claim C2 as amended: `fetch_users` stops when and only when a response
carries a falsy `next` link (absent, null, or the empty string);
`fetch_group_members` stops when and only when a response carries an empty
page; the `fetch_groups` page loop stops only via an empty group page, and
it terminates on every finite sequence ending in an empty page provided
each encountered group's member pagination itself terminates. -/
theorem pagination_termination :
    (∀ resp : List UsersPage,
        (fetch_users resp).isSome = true ↔ ∃ p ∈ resp, strTruthy p.next = false)
  ∧ (∀ resp : List MembersPage,
        (fetch_group_members resp).isSome = true ↔ ∃ p ∈ resp, p.users = [])
  ∧ (∀ (env : String → List MembersPage) (resp : List GroupsPage),
        (fetch_groups env resp).isSome = true → ∃ p ∈ resp, p.groups = [])
  ∧ (∀ (env : String → List MembersPage) (ps : List GroupsPage) (last : GroupsPage),
        (∀ p ∈ ps, p.groups ≠ []) → last.groups = [] →
        (∀ p ∈ ps, ∀ g ∈ p.groups, (fetch_group_members (env g.id)).isSome = true) →
        (fetch_groups env (ps ++ [last])).isSome = true) := by
  refine ⟨?_, ?_, ?_, ?_⟩
  · intro resp
    exact fetch_users_go_isSome resp []
  · intro resp
    exact fetch_group_members_go_isSome resp 1 []
  · intro env resp h
    exact fetch_groups_go_isSome_imp env resp 1 [] h
  · intro env ps last h1 h2 h3
    unfold fetch_groups
    rw [fetch_groups_go_concat env ps last 1 [] h1 h2 h3]
    rfl

/-- Witness for amended C2: a one-page groups run followed by the empty page
terminates when the member pagination terminates at once. -/
theorem pagination_termination_witness :
    (fetch_groups (fun _ => [MembersPage.mk []])
      ([GroupsPage.mk [RawGroup.mk "g1" "G" none]] ++ [GroupsPage.mk []])).isSome = true :=
  pagination_termination.2.2.2 (fun _ => [MembersPage.mk []])
    [GroupsPage.mk [RawGroup.mk "g1" "G" none]] (GroupsPage.mk [])
    (by decide) rfl (by decide)

/-- Claim C3: each pagination fetcher returns the in-order concatenation of
the record lists of the pages received before (and including) the stopping
response; no record is reordered, duplicated, or discarded.  For
`fetch_groups`, each page's group records are returned in page order,
enriched in place with their fetched members. -/
theorem fetchers_concat_pages :
    (∀ (ps : List UsersPage) (last : UsersPage),
        (∀ p ∈ ps, strTruthy p.next = true) → strTruthy last.next = false →
        fetch_users (ps ++ [last]) = some (((ps ++ [last]).map UsersPage.data).flatten))
  ∧ (∀ (ps : List MembersPage) (last : MembersPage),
        (∀ p ∈ ps, p.users ≠ []) → last.users = [] →
        fetch_group_members (ps ++ [last]) = some (((ps ++ [last]).map MembersPage.users).flatten))
  ∧ (∀ (env : String → List MembersPage) (ps : List GroupsPage) (last : GroupsPage),
        (∀ p ∈ ps, p.groups ≠ []) → last.groups = [] →
        (∀ p ∈ ps, ∀ g ∈ p.groups, (fetch_group_members (env g.id)).isSome = true) →
        fetch_groups env (ps ++ [last]) = some (((ps ++ [last]).map fun p =>
          p.groups.map fun g =>
            GroupRec.mk g.id g.name g.description ((fetch_group_members (env g.id)).getD [])).flatten)) := by
  refine ⟨?_, ?_, ?_⟩
  · intro ps last h1 h2
    unfold fetch_users
    rw [fetch_users_go_concat ps last [] h1 h2]
    simp
  · intro ps last h1 h2
    unfold fetch_group_members
    rw [fetch_group_members_go_concat ps last 1 [] h1 h2]
    simp [h2]
  · intro env ps last h1 h2 h3
    unfold fetch_groups
    rw [fetch_groups_go_concat env ps last 1 [] h1 h2 h3]
    simp [h2]

/-- Witness for C3: a two-page users run concatenates the two pages in
order. -/
theorem fetchers_concat_pages_witness :
    fetch_users
      [UsersPage.mk [UserRec.mk (some "a") none none none none] (some "page2"),
       UsersPage.mk [UserRec.mk (some "b") none none none none] none]
      = some [UserRec.mk (some "a") none none none none,
              UserRec.mk (some "b") none none none none] := by
  have h := fetchers_concat_pages.1
    [UsersPage.mk [UserRec.mk (some "a") none none none none] (some "page2")]
    (UsersPage.mk [UserRec.mk (some "b") none none none none] none)
    (by decide) (by decide)
  simpa using h

/-- Counterexample to claim C4 as stated: the groups value of a user is not a
duplicate-free set of group names.  Two distinct groups that share the name
`Team` and both contain user `u1` put two copies of `Team` into that
user's groups list. -/
theorem membership_index_cex :
    (users_output [UserRec.mk (some "u1") none none none none]
        [GroupRec.mk "g1" "Team" none [Member.mk (some "u1") (some "Alice")],
         GroupRec.mk "g2" "Team" none [Member.mk (some "u1") (some "Alice")]]).map UserOut.groups
      = [["Team", "Team"]]
  ∧ ¬ (["Team", "Team"] : List String).Nodup := by
  exact ⟨rfl, by decide⟩

/-- Claim C4 as amended: for every user id that is a truthy accountId of some
fetched user, the membership index holds, group by group in fetch order,
one copy of each group's name per member occurrence with that id (so a
name can repeat when distinct groups share it or a member is listed
twice); a name occurs at all exactly when some group with that name has
the user as a member. -/
theorem membership_index_characterization (users : List UserRec) (groups : List GroupRec)
    (uid : String) (h : ∃ u ∈ users, u.accountId = some uid ∧ uid ≠ "") :
    dlookup uid (user_to_groups_map users groups)
      = some ((groups.map fun g =>
          (g.members.filter fun mem => decide (mem.id = some uid)).map fun _ => g.name).flatten)
  ∧ ∀ gname,
      (gname ∈ ((groups.map fun g =>
          (g.members.filter fun mem => decide (mem.id = some uid)).map fun _ => g.name).flatten)
        ↔ ∃ g ∈ groups, g.name = gname ∧ ∃ mem ∈ g.members, mem.id = some uid) := by
  constructor
  · rw [dlookup_user_to_groups_map]
    rw [if_pos]
    obtain ⟨u, hu, h1, h2⟩ := h
    exact List.any_eq_true.mpr ⟨u, hu, decide_eq_true ⟨h1, h2⟩⟩
  · intro gname
    constructor
    · intro hg
      obtain ⟨ll, hll, hmem⟩ := List.mem_flatten.mp hg
      obtain ⟨g, hgmem, hfg⟩ := List.mem_map.mp hll
      rw [← hfg] at hmem
      obtain ⟨mem, hmm, hname⟩ := List.mem_map.mp hmem
      obtain ⟨hmm2, hcond2⟩ := List.mem_filter.mp hmm
      exact ⟨g, hgmem, hname, mem, hmm2, of_decide_eq_true hcond2⟩
    · intro hg
      obtain ⟨g, hgmem, hname, mem, hmm, hid⟩ := hg
      refine List.mem_flatten.mpr
        ⟨(g.members.filter fun mem => decide (mem.id = some uid)).map fun _ => g.name,
         List.mem_map.mpr ⟨g, hgmem, rfl⟩, ?_⟩
      exact List.mem_map.mpr ⟨mem, List.mem_filter.mpr ⟨hmm, decide_eq_true hid⟩, hname⟩

/-- Witness for amended C4 at a concrete input: user `u1`, one group `Team`
containing `u1` once. -/
theorem membership_index_characterization_witness :
    dlookup "u1" (user_to_groups_map
        [UserRec.mk (some "u1") none none none none]
        [GroupRec.mk "g1" "Team" none [Member.mk (some "u1") (some "Alice")]])
      = some ["Team"] := by
  have h := (membership_index_characterization
    [UserRec.mk (some "u1") none none none none]
    [GroupRec.mk "g1" "Team" none [Member.mk (some "u1") (some "Alice")]]
    "u1" ⟨UserRec.mk (some "u1") none none none none, by simp, rfl, by decide⟩).1
  simpa using h

/-- Positional description of one users.json record (login.py:170-181). -/
theorem users_output_getElem (users : List UserRec) (groups : List GroupRec) (i : Nat)
    (u : UserRec) (h : users[i]? = some u) :
    (users_output users groups)[i]?
      = some (UserOut.mk u.accountId u.name u.email u.last_active_date u.status
          (match u.accountId with
           | none => []
           | some s => (dlookup s (user_to_groups_map users groups)).getD [])) := by
  simp [users_output, List.getElem?_map, h]

/-- Positional description of one groups.json record (login.py:188-197). -/
theorem groups_output_getElem (groups : List GroupRec) (i : Nat) (g : GroupRec)
    (h : groups[i]? = some g) :
    (groups_output groups)[i]?
      = some (GroupOut.mk g.id g.name g.description (g.members.map Member.displayName)) := by
  simp [groups_output, List.getElem?_map, h]

/-- Claim C5: the two outputs have the contracted shapes: one users.json
record per fetched user (its six fields are fixed by the `UserOut`
structure), one groups.json record per fetched group whose `members` field
is the list of member display names, one per fetched member, in fetch
order. -/
theorem save_to_json_output_shapes (users : List UserRec) (groups : List GroupRec) :
    (users_output users groups).length = users.length
  ∧ (groups_output groups).length = groups.length
  ∧ ∀ (i : Nat) (g : GroupRec), groups[i]? = some g →
      (groups_output groups)[i]?
        = some (GroupOut.mk g.id g.name g.description (g.members.map Member.displayName)) := by
  exact ⟨by simp [users_output], by simp [groups_output],
         fun i g h => groups_output_getElem groups i g h⟩

/-- Witness for C5 at a concrete input: one group with two members rendered
by display name in order. -/
theorem save_to_json_output_shapes_witness :
    (groups_output [GroupRec.mk "g1" "Team" (some "d")
        [Member.mk (some "u1") (some "Alice"), Member.mk (some "u2") none]])[0]?
      = some (GroupOut.mk "g1" "Team" (some "d") [some "Alice", none]) :=
  (save_to_json_output_shapes []
    [GroupRec.mk "g1" "Team" (some "d")
      [Member.mk (some "u1") (some "Alice"), Member.mk (some "u2") none]]).2.2 0
    (GroupRec.mk "g1" "Team" (some "d")
      [Member.mk (some "u1") (some "Alice"), Member.mk (some "u2") none]) rfl

/-- Claim C6: serialization loses no schema field: positionally, users.json
copies accountId, name, email, last_active_date, status into id, name,
email, last_active, status, and groups.json copies id, name, description;
both outputs preserve input order and length. -/
theorem serialization_preserves_fields (users : List UserRec) (groups : List GroupRec) :
    (users_output users groups).length = users.length
  ∧ (groups_output groups).length = groups.length
  ∧ (∀ (i : Nat) (u : UserRec), users[i]? = some u →
        ∃ r, (users_output users groups)[i]? = some r
          ∧ r.id = u.accountId ∧ r.name = u.name ∧ r.email = u.email
          ∧ r.last_active = u.last_active_date ∧ r.status = u.status)
  ∧ (∀ (i : Nat) (g : GroupRec), groups[i]? = some g →
        ∃ r, (groups_output groups)[i]? = some r
          ∧ r.id = g.id ∧ r.name = g.name ∧ r.description = g.description) := by
  refine ⟨by simp [users_output], by simp [groups_output], ?_, ?_⟩
  · intro i u h
    exact ⟨_, users_output_getElem users groups i u h, rfl, rfl, rfl, rfl, rfl⟩
  · intro i g h
    exact ⟨_, groups_output_getElem groups i g h, rfl, rfl, rfl⟩

/-- Witness for C6 at a concrete input: a fully populated user record. -/
theorem serialization_preserves_fields_witness :
    ∃ r, (users_output
        [UserRec.mk (some "u1") (some "Alice") (some "a@x.io") (some "2024-01-01") (some "active")]
        [])[0]? = some r
      ∧ r.id = some "u1" ∧ r.name = some "Alice" ∧ r.email = some "a@x.io"
      ∧ r.last_active = some "2024-01-01" ∧ r.status = some "active" :=
  (serialization_preserves_fields
    [UserRec.mk (some "u1") (some "Alice") (some "a@x.io") (some "2024-01-01") (some "active")]
    []).2.2.1 0
    (UserRec.mk (some "u1") (some "Alice") (some "a@x.io") (some "2024-01-01") (some "active")) rfl

/-- Claim C7: the single catch-all of `main` logs any exception raised by
login, fetch_users, fetch_groups, or save_to_json and aborts the run; the
outcome is independent of every step after the failing one (it is never
executed), nothing propagates, and a clean body is a success. -/
theorem main_single_catch_all {ε : Type} (e : ε) :
    (∀ (usersR : Except ε (List UserRec)) (groupsR : Except ε (List GroupRec))
        (saveR : List UserRec → List GroupRec → Except ε Unit),
        main_run (Except.error e) usersR groupsR saveR = RunOutcome.loggedError e)
  ∧ (∀ (groupsR : Except ε (List GroupRec))
        (saveR : List UserRec → List GroupRec → Except ε Unit),
        main_run (Except.ok ()) (Except.error e) groupsR saveR = RunOutcome.loggedError e)
  ∧ (∀ (us : List UserRec) (saveR : List UserRec → List GroupRec → Except ε Unit),
        main_run (Except.ok ()) (Except.ok us) (Except.error e) saveR = RunOutcome.loggedError e)
  ∧ (∀ (us : List UserRec) (gs : List GroupRec)
        (saveR : List UserRec → List GroupRec → Except ε Unit), saveR us gs = Except.error e →
        main_run (Except.ok ()) (Except.ok us) (Except.ok gs) saveR = RunOutcome.loggedError e)
  ∧ (∀ (us : List UserRec) (gs : List GroupRec)
        (saveR : List UserRec → List GroupRec → Except ε Unit), saveR us gs = Except.ok () →
        main_run (Except.ok ()) (Except.ok us) (Except.ok gs) saveR = RunOutcome.success) := by
  refine ⟨fun _ _ _ => rfl, fun _ _ => rfl, fun _ _ => rfl, ?_, ?_⟩
  · intro us gs saveR h
    simp [main_run, main_body, h]
  · intro us gs saveR h
    simp [main_run, main_body, h]

/-- Witness for C7: a failure in the save step is logged, not propagated. -/
theorem main_single_catch_all_witness :
    main_run (Except.ok ()) (Except.ok []) (Except.ok [])
      (fun _ _ => Except.error "boom") = RunOutcome.loggedError "boom" :=
  (main_single_catch_all "boom").2.2.2.1 [] [] (fun _ _ => Except.error "boom") rfl

/-- `get_csrf_token` finds nothing when no cookie has the expected name. -/
theorem get_csrf_token_eq_none : ∀ cookies : List Cookie,
    (∀ c ∈ cookies, c.name ≠ "atlassian.account.xsrf.token") →
    get_csrf_token cookies = none := by
  intro cookies
  induction cookies with
  | nil => intro _; rfl
  | cons c rest ih =>
    intro h
    have hc : ¬ c.name = "atlassian.account.xsrf.token" := h c (by simp)
    simp only [get_csrf_token, hc, ite_false, if_neg]
    exact ih fun d hd => h d (by simp [hd])

/-- Claim C9: when no CSRF token cookie exists, `main` of setup.py aborts
before any write: no create_group, invite_user, or add_user_to_group call
is attempted, for any server behavior. -/
theorem csrf_missing_aborts_before_writes (cookies : List Cookie)
    (h : ∀ c ∈ cookies, c.name ≠ "atlassian.account.xsrf.token") :
    get_csrf_token cookies = none
  ∧ ∀ cg iv : String → Option String, setup_main_writes cookies cg iv = [] := by
  have hn : get_csrf_token cookies = none := get_csrf_token_eq_none cookies h
  exact ⟨hn, fun cg iv => by simp [setup_main_writes, hn]⟩

/-- Witness for C9: a cookie jar holding only an unrelated cookie. -/
theorem csrf_missing_aborts_before_writes_witness :
    get_csrf_token [Cookie.mk "JSESSIONID" "abc"] = none
  ∧ ∀ cg iv : String → Option String,
      setup_main_writes [Cookie.mk "JSESSIONID" "abc"] cg iv = [] :=
  csrf_missing_aborts_before_writes [Cookie.mk "JSESSIONID" "abc"] (by decide)

/-- Claim C10: the offset cursors advance by a fixed stride regardless of
page contents: the start-index of the k-th executed iteration is exactly
1 + 50k for the member loop and 1 + 20k for the groups loop. -/
theorem offset_stride_invariant :
    (∀ (resp : List MembersPage) (k i : Nat),
        (member_request_indices resp 1).get? k = some i → i = 1 + 50 * k)
  ∧ (∀ (resp : List GroupsPage) (k i : Nat),
        (group_request_indices resp 1).get? k = some i → i = 1 + 20 * k) :=
  ⟨fun resp k i h => member_request_indices_spec resp 1 k i h,
   fun resp k i h => group_request_indices_spec resp 1 k i h⟩

/-- Witness for C10: the second iteration of each loop requests start-index
51, respectively 21, whatever the first page held. -/
theorem offset_stride_invariant_witness :
    (51 : Nat) = 1 + 50 * 1 ∧ (21 : Nat) = 1 + 20 * 1 :=
  ⟨offset_stride_invariant.1
      [MembersPage.mk [Member.mk none none], MembersPage.mk []] 1 51 (by decide),
   offset_stride_invariant.2
      [GroupsPage.mk [RawGroup.mk "g" "G" none], GroupsPage.mk []] 1 21 (by decide)⟩

/-- Counterexample to claim C8 as stated: a user with the falsy but non-null
accountId `""` is excluded from the membership index, yet its users.json
record carries id `""`, not null. -/
theorem falsy_account_id_cex :
    strTruthy (some "") = false
  ∧ users_output [UserRec.mk (some "") none none none none] []
      = [UserOut.mk (some "") none none none none []]
  ∧ (some "" : Option String) ≠ (none : Option String) := by
  exact ⟨rfl, rfl, by simp⟩

/-- Claim C8 as amended: a user whose accountId is falsy (missing, None, or
the empty string) gets no key in the membership index — no group can be
linked to it — yet still appears positionally in users.json, with id equal
to its raw accountId value (null exactly when the accountId was missing or
None) and groups equal to the empty list. -/
theorem falsy_account_id_excluded (users : List UserRec) (groups : List GroupRec)
    (i : Nat) (u : UserRec) (hu : users[i]? = some u)
    (hfalsy : strTruthy u.accountId = false) :
    (users_output users groups)[i]?
      = some (UserOut.mk u.accountId u.name u.email u.last_active_date u.status [])
  ∧ dlookup "" (user_to_groups_map users groups) = none := by
  have hkey : dlookup "" (user_to_groups_map users groups) = none := by
    rw [dlookup_user_to_groups_map]
    simp
  refine ⟨?_, hkey⟩
  rw [users_output_getElem users groups i u hu]
  cases hacc : u.accountId with
  | none => simp [hacc]
  | some s =>
    have hs : s = "" := by
      rw [hacc] at hfalsy
      simpa [strTruthy] using hfalsy
    subst hs
    simp [hacc, hkey]

/-- Witness for amended C8: a user with accountId `""` next to a normal user
and a group; the falsy user keeps its raw id and an empty groups list. -/
theorem falsy_account_id_excluded_witness :
    (users_output
        [UserRec.mk (some "") (some "Ghost") none none none,
         UserRec.mk (some "u1") none none none none]
        [GroupRec.mk "g1" "Team" none [Member.mk (some "u1") (some "Alice")]])[0]?
      = some (UserOut.mk (some "") (some "Ghost") none none none [])
  ∧ dlookup "" (user_to_groups_map
        [UserRec.mk (some "") (some "Ghost") none none none,
         UserRec.mk (some "u1") none none none none]
        [GroupRec.mk "g1" "Team" none [Member.mk (some "u1") (some "Alice")]]) = none :=
  falsy_account_id_excluded
    [UserRec.mk (some "") (some "Ghost") none none none,
     UserRec.mk (some "u1") none none none none]
    [GroupRec.mk "g1" "Team" none [Member.mk (some "u1") (some "Alice")]]
    0 (UserRec.mk (some "") (some "Ghost") none none none) rfl rfl
